import Mathlib

/-!
Verification of the Therapy_Esther preprocessing pipeline.

The development shallowly embeds the three algorithmic stages of the
repository:

* the transcript/speaker aligner of `src/data.py` (`process_audio_file`
  together with its inner `segment_score`, best-score loop and
  nearest-midpoint fallback loop),
* the utterance groupers of `src/preprocess_data.py` (always-prefix
  client lines) and `src/preprocessing_data_3.py` (prefix only on a
  partner change), both named `group_consecutive_utterances` in the
  sources, here split into the namespaces `PD` and `PD3`,
* the dialogue-pair serialisation and sliding-window conversation
  builder of `src/preprocessing_data_3.py`.

Python floats carrying timestamps are embedded as rationals; the Python
`ZeroDivisionError` raised by `segment_score` on a zero-duration
transcript segment is embedded as `Except.error ()`, which aborts the
processing of the recording exactly as the exception does.
-/

namespace TherapyEsther

/-! ### Data model: aligner (src/data.py) -/

/-- One ASR segment, the dict `{start, end, text}` of `data.py`
(`end` is a Lean keyword, so the field is called `stop`). -/
structure TranscriptSegment where
  start : ℚ
  stop : ℚ
  text : String
deriving DecidableEq, Repr, Inhabited

/-- One diarization segment with the attribute names used by `data.py`. -/
structure SpeakerSegment where
  start_sec : ℚ
  end_sec : ℚ
  speaker_tag : String
deriving DecidableEq, Repr, Inhabited

/-- One output row of the aligner: the speaker label and the text that
`data.py` writes as the line `f"{speaker_label}: {t_segment['text']}"`. -/
structure AttributedUtterance where
  speakerLabel : String
  text : String
deriving DecidableEq, Repr, Inhabited

/-- The line written to the final transcript for one attributed utterance. -/
def attributedLine (a : AttributedUtterance) : String :=
  a.speakerLabel ++ ": " ++ a.text

/-- The pure value of the overlap-ratio score of `segment_score`
(`data.py` lines 109-116), meaningful when the denominator is nonzero. -/
def scoreVal (t : TranscriptSegment) (s : SpeakerSegment) : ℚ :=
  (min t.stop s.end_sec - max t.start s.start_sec) / (t.stop - t.start)

/-- `segment_score` of `data.py`: the overlap ratio, raising
(`Except.error`) on the division by zero that Python raises when
`t.end - t.start == 0`. -/
def segment_score (t : TranscriptSegment) (s : SpeakerSegment) : Except Unit ℚ :=
  if t.stop - t.start = 0 then .error ()
  else .ok ((min t.stop s.end_sec - max t.start s.start_sec) / (t.stop - t.start))

/-- The best-score selection loop of `process_audio_file` (`data.py`
lines 125-131): `max_score` starts at `0`, `best_s_segment` at `None`,
and a segment is kept only on a strictly greater score. An exception
from `segment_score` aborts the loop. -/
def bestLoop (t : TranscriptSegment) :
    List SpeakerSegment → ℚ → Option SpeakerSegment → Except Unit (Option SpeakerSegment)
  | [], _, best => .ok best
  | s :: rest, maxScore, best =>
    match segment_score t s with
    | .error e => .error e
    | .ok score =>
      if score > maxScore then bestLoop t rest score (some s)
      else bestLoop t rest maxScore best

/-- The pure best-score selection loop, used to reason about `bestLoop`
away from the zero-duration error case. -/
def bestPure (t : TranscriptSegment) :
    List SpeakerSegment → ℚ → Option SpeakerSegment → Option SpeakerSegment
  | [], _, best => best
  | s :: rest, maxScore, best =>
    if scoreVal t s > maxScore then bestPure t rest (scoreVal t s) (some s)
    else bestPure t rest maxScore best

/-- Distance between the midpoint of `t` and the midpoint of `s`, as in the
fallback branch of `process_audio_file` (`data.py` lines 137-150). -/
def distVal (t : TranscriptSegment) (s : SpeakerSegment) : ℚ :=
  |(t.start + t.stop) / 2 - (s.start_sec + s.end_sec) / 2|

/-- The nearest-midpoint fallback loop of `process_audio_file`
(`data.py` lines 142-150).  The Python accumulator
`(min_distance, closest_segment)` starts at `(inf, None)`, so the first
segment always replaces it; the `none` accumulator embeds that initial
state, and afterwards the stored segment's own distance is the running
minimum. -/
def closestLoop (t : TranscriptSegment) :
    List SpeakerSegment → Option SpeakerSegment → Option SpeakerSegment
  | [], closest => closest
  | s :: rest, none => closestLoop t rest (some s)
  | s :: rest, some c =>
    if distVal t s < distVal t c then closestLoop t rest (some s)
    else closestLoop t rest (some c)

/-- The fallback selection over the whole speaker-segment list. -/
def closest_segment (t : TranscriptSegment) (ss : List SpeakerSegment) :
    Option SpeakerSegment :=
  closestLoop t ss none

/-- The per-transcript-segment body of `process_audio_file`
(`data.py` lines 124-157): best-score selection, else nearest-midpoint
fallback, else `"Speaker Unknown"`; the chosen tag is formatted as
`f"Speaker {tag}"`. -/
def process_one (t : TranscriptSegment) (ss : List SpeakerSegment) :
    Except Unit AttributedUtterance :=
  match bestLoop t ss 0 none with
  | .error e => .error e
  | .ok (some s) => .ok ⟨"Speaker " ++ s.speaker_tag, t.text⟩
  | .ok none =>
    match closest_segment t ss with
    | some c => .ok ⟨"Speaker " ++ c.speaker_tag, t.text⟩
    | none => .ok ⟨"Speaker Unknown", t.text⟩

/-- The alignment loop of `process_audio_file` (`data.py` lines 123-160):
one attributed utterance per transcript segment, in order; an exception
aborts the recording. -/
def process_audio_file :
    List TranscriptSegment → List SpeakerSegment → Except Unit (List AttributedUtterance)
  | [], _ => .ok []
  | t :: ts, ss =>
    match process_one t ss with
    | .error e => .error e
    | .ok a =>
      match process_audio_file ts ss with
      | .error e => .error e
      | .ok rest => .ok (a :: rest)

/-- Modelled from the spec: the spec's "text … trimmed of surrounding
whitespace" (Python `str.strip()`), as a structural function so concrete
instances evaluate.  Strips leading whitespace characters. -/
def trimCharsLeft : List Char → List Char
  | [] => []
  | c :: cs => if c.isWhitespace then trimCharsLeft cs else c :: cs

/-- Modelled from the spec: surrounding-whitespace trim of a string
(Python `str.strip()`), used only to compare the aligner's actual output
against the spec's claim that emitted text is trimmed. -/
def specTrim (s : String) : String :=
  ⟨trimCharsLeft (trimCharsLeft s.data.reverse).reverse⟩

/-! ### Data model: grouper (src/preprocess_data.py, src/preprocessing_data_3.py) -/

/-- The role of a turn group: the strings `'therapist'` / `'client'` of the
sources. -/
inductive GRole where
  | therapist
  | client
deriving DecidableEq, Repr, Inhabited

/-- One parsed utterance, the dict `{speaker, text}` of the sources. -/
structure Utterance where
  speaker : String
  text : String
deriving DecidableEq, Repr, Inhabited

/-- One emitted turn group, the dict `{role, content}` of the sources. -/
structure Group where
  role : GRole
  content : List String
deriving DecidableEq, Repr, Inhabited

/-- The speaker configuration installed by `setup_speaker_mapping` in both
grouper sources: therapist speaker ids, excluded speaker ids, and the
partner mapping from speaker id to partner name (the reverse mapping the
setup builds from `partner_mappings`). -/
structure SpeakerProfile where
  therapist_speakers : List String
  excluded_speakers : List String
  partner_mapping : List (String × String)
deriving DecidableEq, Repr, Inhabited

/-- Lookup of `self.speaker_mapping[speaker]` restricted to partner
entries (the only entries the client branch can reach, since the
therapist branch is tested first). -/
def lookupPartner (p : SpeakerProfile) (s : String) : Option String :=
  (p.partner_mapping.find? (fun kv => kv.1 = s)).map (·.2)

/-- Role determination of `group_consecutive_utterances` (identical in both
sources): excluded speakers and speakers in no mapping are dropped
(`none`); otherwise therapist wins over client. -/
def roleOf (p : SpeakerProfile) (s : String) : Option GRole :=
  if s ∈ p.excluded_speakers then none
  else if s ∈ p.therapist_speakers then some .therapist
  else if (lookupPartner p s).isSome then some .client
  else none

/-- The loop state of `group_consecutive_utterances`: the groups emitted so
far and the open `current_group` (`role`, `content`, and — used only by
`preprocessing_data_3.py` — `current_speaker`).  `curRole = none` is
Python's `{'role': None, 'content': [], 'current_speaker': None}`. -/
structure GState where
  grouped : List Group
  curRole : Option GRole
  curContent : List String
  curSpeaker : Option String
deriving DecidableEq, Repr, Inhabited

/-- The state both groupers start from. -/
def initState : GState := ⟨[], none, [], none⟩

/-- The "role changed or first utterance" branch, shared verbatim by both
sources: emit the open group (when one exists) and open a fresh group for
`role`, resetting `current_speaker`. -/
def closeIfNeeded (role : GRole) (st : GState) : GState :=
  if st.curRole = some role then st
  else
    ⟨(match st.curRole with
      | none => st.grouped
      | some r => st.grouped ++ [⟨r, st.curContent⟩]),
     some role, [], none⟩

/-- Append one rendered line to the open group, recording the new
`current_speaker` value. -/
def appendLine (st : GState) (line : String) (sp : Option String) : GState :=
  { st with curContent := st.curContent ++ [line], curSpeaker := sp }

/-- The "don't forget the last group" epilogue shared by both sources. -/
def finalize (st : GState) : List Group :=
  match st.curRole with
  | none => st.grouped
  | some r => st.grouped ++ [⟨r, st.curContent⟩]

namespace PD

/-- Per-utterance step of `group_consecutive_utterances` in
`src/preprocess_data.py` (lines 75-106): therapist lines verbatim, client
lines always carrying the `"[partnerName]: "` identifier. -/
def step (p : SpeakerProfile) (st : GState) (u : Utterance) : GState :=
  match roleOf p u.speaker with
  | none => st
  | some GRole.therapist =>
    let st1 := closeIfNeeded GRole.therapist st
    appendLine st1 u.text st1.curSpeaker
  | some GRole.client =>
    let st1 := closeIfNeeded GRole.client st
    appendLine st1
      ("[" ++ (lookupPartner p u.speaker).getD "" ++ "]: " ++ u.text) st1.curSpeaker

/-- `group_consecutive_utterances` of `src/preprocess_data.py`. -/
def group_consecutive_utterances (p : SpeakerProfile) (utts : List Utterance) :
    List Group :=
  finalize (utts.foldl (step p) initState)

end PD

namespace PD3

/-- Per-utterance step of `group_consecutive_utterances` in
`src/preprocessing_data_3.py` (lines 76-114): like `PD.step`, but a client
line carries the `"[partnerName]: "` identifier only when the partner
changed since the last client line of the open group. -/
def step (p : SpeakerProfile) (st : GState) (u : Utterance) : GState :=
  match roleOf p u.speaker with
  | none => st
  | some GRole.therapist =>
    let st1 := closeIfNeeded GRole.therapist st
    appendLine st1 u.text st1.curSpeaker
  | some GRole.client =>
    let st1 := closeIfNeeded GRole.client st
    let pname := (lookupPartner p u.speaker).getD ""
    if st1.curSpeaker = some pname then appendLine st1 u.text st1.curSpeaker
    else appendLine st1 ("[" ++ pname ++ "]: " ++ u.text) (some pname)

/-- `group_consecutive_utterances` of `src/preprocessing_data_3.py`. -/
def group_consecutive_utterances (p : SpeakerProfile) (utts : List Utterance) :
    List Group :=
  finalize (utts.foldl (step p) initState)

end PD3

/-! ### Data model: dialogue pairs and windows -/

/-- The `"from"` tag of a dialogue message (`from` is a Lean keyword, so
the field is `fromRole`). -/
inductive MsgRole where
  | human
  | gpt
deriving DecidableEq, Repr, Inhabited

/-- One dialogue message, the dict `{"from": ..., "value": ...}` of the
sources. -/
structure DialoguePair where
  fromRole : MsgRole
  value : String
deriving DecidableEq, Repr, Inhabited

namespace PD

/-- One message of `convert_to_training_format` in `src/preprocess_data.py`
(lines 114-137): lines joined with `"\n"`, `client → human`,
`therapist → gpt`. -/
def msgOf (g : Group) : DialoguePair :=
  let content := "\n".intercalate g.content
  match g.role with
  | GRole.client => ⟨.human, content⟩
  | GRole.therapist => ⟨.gpt, content⟩

/-- `convert_to_training_format` of `src/preprocess_data.py`. -/
def convert_to_training_format (gs : List Group) : List DialoguePair :=
  gs.map msgOf

end PD

namespace PD3

/-- One message of `create_dialogue_pairs` in `src/preprocessing_data_3.py`
(lines 122-144): lines joined with a single space, `client → human`,
`therapist → gpt`. -/
def msgOf (g : Group) : DialoguePair :=
  let content := " ".intercalate g.content
  match g.role with
  | GRole.client => ⟨.human, content⟩
  | GRole.therapist => ⟨.gpt, content⟩

/-- `create_dialogue_pairs` of `src/preprocessing_data_3.py`. -/
def create_dialogue_pairs (gs : List Group) : List DialoguePair :=
  gs.map msgOf

end PD3

/-- One valid exchange found by the scan in
`create_sliding_window_conversations` (`src/preprocessing_data_3.py` lines
161-170): the recorded index pair `(i, i+1)` together with the two
messages `dialogue_pairs[i]` and `dialogue_pairs[i+1]` that the window
construction later reads back at those indices (the list is immutable, so
carrying the messages embeds that lookup). -/
structure Exchange where
  humanIdx : Nat
  gptIdx : Nat
  humanMsg : DialoguePair
  gptMsg : DialoguePair
deriving DecidableEq, Repr, Inhabited

namespace PD3

/-- The valid-exchange scan of `create_sliding_window_conversations`
(`src/preprocessing_data_3.py` lines 161-170): while at least two messages
remain, a human message immediately followed by a gpt message is recorded
and the index advances by 2, otherwise it advances by 1. -/
def find_valid_pairs : Nat → List DialoguePair → List Exchange
  | i, a :: b :: rest =>
    if a.fromRole = MsgRole.human ∧ b.fromRole = MsgRole.gpt then
      ⟨i, i + 1, a, b⟩ :: find_valid_pairs (i + 2) rest
    else find_valid_pairs (i + 1) (b :: rest)
  | _, _ => []

/-- `create_sliding_window_conversations` of `src/preprocessing_data_3.py`
(lines 146-191): fewer than two messages yield nothing; otherwise one
window per valid exchange `pair_idx`, holding the exchanges from
`max(0, pair_idx - window_size + 1)` (natural subtraction
`pair_idx + 1 - window_size` below) through `pair_idx`, each contributing
its human message then its gpt message. -/
def create_sliding_window_conversations (dps : List DialoguePair)
    (window_size : Nat) : List (List DialoguePair) :=
  if dps.length < 2 then []
  else
    (List.range (find_valid_pairs 0 dps).length).map fun pair_idx =>
      (((find_valid_pairs 0 dps).take (pair_idx + 1)).drop
          (pair_idx + 1 - window_size)).flatMap
        fun e => [e.humanMsg, e.gptMsg]

end PD3

/-- Feed the aligner's output to the grouper: each attributed utterance
becomes a `{speaker, text}` record keyed by its speaker label, as the
`"<label>: <text>"` transcript lines are re-read by the converters. -/
def toUtterances (as : List AttributedUtterance) : List Utterance :=
  as.map fun a => ⟨a.speakerLabel, a.text⟩

/-! ### Statement-side definitions for the claims -/

/-- The utterances the groupers keep: speaker neither excluded nor
unmapped. -/
def mappedUtterances (p : SpeakerProfile) (utts : List Utterance) : List Utterance :=
  utts.filter fun u => (roleOf p u.speaker).isSome

/-- A turn-group line `line` renders the utterance `u`: it is `u`'s text
verbatim, or `u`'s text carrying the `"[partnerName]: "` identifier of
`u`'s partner. -/
def lineFromUtt (p : SpeakerProfile) (line : String) (u : Utterance) : Prop :=
  line = u.text ∨
    ∃ pn, lookupPartner p u.speaker = some pn ∧ line = "[" ++ pn ++ "]: " ++ u.text

/-- Two rendered lines agree up to the optional `"[partnerName]: "`
identifier: equal, or the first is the second with an identifier
prepended. -/
def lineUpToTag (l1 l3 : String) : Prop :=
  l1 = l3 ∨ ∃ pn t, l1 = "[" ++ pn ++ "]: " ++ t ∧ l3 = t

/-- Correspondence between a group of `PD.group_consecutive_utterances` and
the group `PD3.group_consecutive_utterances` emits in the same position:
same role, lines pairwise equal up to the client identifier, and therapist
groups literally identical. -/
def groupMatches (g1 g3 : Group) : Prop :=
  g1.role = g3.role ∧ List.Forall₂ lineUpToTag g1.content g3.content ∧
    (g1.role = GRole.therapist → g1.content = g3.content)

/-- All lines of all emitted groups, in emission order. -/
def groupLines (gs : List Group) : List String :=
  gs.flatMap (·.content)

/-- All lines held by a grouper state: the lines of the groups emitted so
far followed by the open group's lines. -/
def flattenState (st : GState) : List String :=
  st.grouped.flatMap (·.content) ++ st.curContent

/-- Invariant of the states both groupers reach: before the first kept
utterance nothing is accumulated; an open group is nonempty and differs
in role from the last emitted group; emitted groups are nonempty and
consecutive ones differ in role. -/
def stateInv (st : GState) : Prop :=
  (st.curRole = none → st.grouped = [] ∧ st.curContent = []) ∧
  (∀ r, st.curRole = some r → st.curContent ≠ [] ∧
    ∀ g ∈ st.grouped.getLast?, g.role ≠ r) ∧
  (∀ g ∈ st.grouped, g.content ≠ []) ∧
  List.Chain' (fun a b => a.role ≠ b.role) st.grouped

/-- Common shape of the two groupers' per-utterance steps: an excluded or
unmapped speaker leaves the state untouched; a kept utterance closes the
open group when the role changed and appends exactly one rendered line. -/
def stepShape (stepFn : SpeakerProfile → GState → Utterance → GState) : Prop :=
  ∀ (p : SpeakerProfile) (st : GState) (u : Utterance),
    (roleOf p u.speaker = none ∧ stepFn p st u = st) ∨
    (∃ role line sp, roleOf p u.speaker = some role ∧ lineFromUtt p line u ∧
      stepFn p st u = appendLine (closeIfNeeded role st) line sp)

/-- Correspondence between the open contents of the two groupers: lines
pairwise equal up to the client identifier, and literally equal while a
therapist group is open. -/
def contentMatches (r : Option GRole) (c1 c3 : List String) : Prop :=
  List.Forall₂ lineUpToTag c1 c3 ∧ (r = some GRole.therapist → c1 = c3)

/-- Correspondence between a state of `PD.step` and the state `PD3.step`
reaches on the same input. -/
def stateMatches (s1 s3 : GState) : Prop :=
  s1.curRole = s3.curRole ∧ List.Forall₂ groupMatches s1.grouped s3.grouped ∧
    contentMatches s1.curRole s1.curContent s3.curContent

/-- The messages one exchange contributes to a window. -/
def exchangeMsgs (e : Exchange) : List DialoguePair :=
  [e.humanMsg, e.gptMsg]

/-- The window the claim describes for exchange `k`: the exchanges at
positions `max (0, k - windowSize + 1)` (natural subtraction `k + 1 - w`)
through `k`, in order, each contributing its human message then its gpt
message. -/
def claimWindow (vp : List Exchange) (w k : Nat) : List DialoguePair :=
  (List.range' (k + 1 - w) (k + 1 - (k + 1 - w))).flatMap fun j =>
    exchangeMsgs (vp.getD j default)

/-- A six-message dialogue with valid exchanges at scan positions 0, 1
and 2, used to instantiate the window-anchoring claim. -/
def sixMsgs : List DialoguePair :=
  [⟨MsgRole.human, "h0"⟩, ⟨MsgRole.gpt, "g0"⟩, ⟨MsgRole.human, "h1"⟩,
   ⟨MsgRole.gpt, "g1"⟩, ⟨MsgRole.human, "h2"⟩, ⟨MsgRole.gpt, "g2"⟩]

/-- The conclusion of claim C2, for a transcript segment of positive
duration: the best-score loop comes back empty exactly when every
speaker segment scores non-positively; a winner is first-seen among the
strictly greatest (positive) scores and is the emitted label; the
fallback winner is first-seen among the minimal midpoint distances; an
empty speaker-segment list yields `"Speaker Unknown"`. -/
def C2Conclusion (t : TranscriptSegment) (ss : List SpeakerSegment) : Prop :=
  (bestLoop t ss 0 none = .ok none ↔ ∀ s ∈ ss, scoreVal t s ≤ 0) ∧
  (∀ s, bestLoop t ss 0 none = .ok (some s) →
    process_one t ss = .ok ⟨"Speaker " ++ s.speaker_tag, t.text⟩ ∧
    0 < scoreVal t s ∧
    ∃ l1 l2, ss = l1 ++ s :: l2 ∧
      (∀ x ∈ l1, scoreVal t x < scoreVal t s) ∧
      (∀ y ∈ l2, scoreVal t y ≤ scoreVal t s)) ∧
  (bestLoop t ss 0 none = .ok none →
    process_one t ss = .ok
      ⟨(match closest_segment t ss with
        | some c => "Speaker " ++ c.speaker_tag
        | none => "Speaker Unknown"), t.text⟩) ∧
  (∀ c, closest_segment t ss = some c →
    ∃ l1 l2, ss = l1 ++ c :: l2 ∧
      (∀ x ∈ l1, distVal t c < distVal t x) ∧
      (∀ y ∈ l2, distVal t c ≤ distVal t y)) ∧
  (ss = [] → process_one t ss = .ok ⟨"Speaker Unknown", t.text⟩)

/-- The conclusion of claim C7 as amended: only a zero-duration transcript
segment divides by zero, and the resulting Python exception is embedded as
`Except.error`, aborting the recording whenever at least one speaker
segment gets scored; with no speaker segments no score is computed and the
label is `"Speaker Unknown"`. -/
def C7Conclusion (t : TranscriptSegment) (s : SpeakerSegment)
    (ss : List SpeakerSegment) : Prop :=
  (t.stop = t.start → segment_score t s = .error ()) ∧
  (t.stop ≠ t.start → segment_score t s = .ok (scoreVal t s)) ∧
  (t.stop = t.start → ss ≠ [] → process_one t ss = .error ()) ∧
  (process_one t [] = .ok ⟨"Speaker Unknown", t.text⟩)

/-- The conclusion of claim C8 as amended: on success the aligner emits
exactly one utterance per transcript segment, in order, and the emitted
text is the segment's text verbatim. -/
def C8Conclusion (ts : List TranscriptSegment) (ss : List SpeakerSegment)
    (out : List AttributedUtterance) : Prop :=
  out.length = ts.length ∧
  ∀ j, j < ts.length →
    process_one (ts.getD j default) ss = .ok (out.getD j default) ∧
    (out.getD j default).text = (ts.getD j default).text

/-- The transcript segments of the spec's end-to-end scenario. -/
def scenarioTranscript : List TranscriptSegment :=
  [⟨0, 5, "hi"⟩, ⟨5, 10, "how are you"⟩]

/-- The speaker segments of the spec's end-to-end scenario. -/
def scenarioSpeakers : List SpeakerSegment :=
  [⟨0, 4, "A"⟩, ⟨4, 10, "B"⟩]

/-- The speaker profile exactly as the end-to-end claim states it:
therapist `{"A"}`, partner `{"B" ↦ "Partner A"}`. -/
def scenarioProfileClaim : SpeakerProfile :=
  ⟨["A"], [], [("B", "Partner A")]⟩

/-- The speaker profile keyed by the labels the aligner actually emits:
therapist `{"Speaker A"}`, partner `{"Speaker B" ↦ "Partner A"}`. -/
def scenarioProfileLabels : SpeakerProfile :=
  ⟨["Speaker A"], [], [("Speaker B", "Partner A")]⟩

/-- The attributed utterances the aligner produces on the scenario. -/
def scenarioAttributed : List AttributedUtterance :=
  [⟨"Speaker A", "hi"⟩, ⟨"Speaker B", "how are you"⟩]

/-- The turn groups the scenario produces under `scenarioProfileLabels`. -/
def scenarioGroups : List Group :=
  [⟨GRole.therapist, ["hi"]⟩, ⟨GRole.client, ["[Partner A]: how are you"]⟩]

/-- The dialogue pairs the scenario produces. -/
def scenarioPairs : List DialoguePair :=
  [⟨MsgRole.gpt, "hi"⟩, ⟨MsgRole.human, "[Partner A]: how are you"⟩]

/-! ### Aligner lemmas -/

lemma segment_score_ok {t : TranscriptSegment} (s : SpeakerSegment)
    (h : t.stop - t.start ≠ 0) : segment_score t s = .ok (scoreVal t s) := by
  simp [segment_score, scoreVal, h]

lemma bestLoop_eq_pure {t : TranscriptSegment} (h : t.stop - t.start ≠ 0) :
    ∀ (ss : List SpeakerSegment) (m : ℚ) (b : Option SpeakerSegment),
      bestLoop t ss m b = .ok (bestPure t ss m b) := by
  intro ss
  induction ss with
  | nil => intro m b; rfl
  | cons s rest ih =>
    intro m b
    simp only [bestLoop, bestPure, segment_score_ok s h]
    split <;> exact ih _ _

lemma bestPure_isSome (t : TranscriptSegment) :
    ∀ (ss : List SpeakerSegment) (m : ℚ) (c : SpeakerSegment),
      (bestPure t ss m (some c)).isSome = true := by
  intro ss
  induction ss with
  | nil => intro m c; rfl
  | cons s rest ih =>
    intro m c
    simp only [bestPure]
    split
    · exact ih _ _
    · exact ih _ _

lemma bestPure_none_iff (t : TranscriptSegment) :
    ∀ (ss : List SpeakerSegment) (m : ℚ),
      bestPure t ss m none = none ↔ ∀ s ∈ ss, scoreVal t s ≤ m := by
  intro ss
  induction ss with
  | nil => intro m; simp [bestPure]
  | cons s rest ih =>
    intro m
    by_cases hs : scoreVal t s > m
    · simp only [bestPure, if_pos hs]
      constructor
      · intro hcontra
        have := bestPure_isSome t rest (scoreVal t s) s
        rw [hcontra] at this
        cases this
      · intro hall
        exact absurd (hall s (.head _)) (not_le.mpr hs)
    · simp only [bestPure, if_neg hs]
      rw [ih m]
      constructor
      · intro hall x hx
        rcases List.mem_cons.mp hx with rfl | hx
        · exact not_lt.mp hs
        · exact hall x hx
      · intro hall x hx
        exact hall x (.tail _ hx)

lemma bestPure_spec (t : TranscriptSegment) :
    ∀ (ss : List SpeakerSegment) (m : ℚ) (b : Option SpeakerSegment)
      (s : SpeakerSegment),
      bestPure t ss m b = some s →
      (b = some s ∧ ∀ x ∈ ss, scoreVal t x ≤ m) ∨
      (∃ l1 l2, ss = l1 ++ s :: l2 ∧ m < scoreVal t s ∧
        (∀ x ∈ l1, scoreVal t x ≤ m ∨ scoreVal t x < scoreVal t s) ∧
        (∀ y ∈ l2, scoreVal t y ≤ scoreVal t s)) := by
  intro ss
  induction ss with
  | nil =>
    intro m b s h
    left
    exact ⟨h, by simp⟩
  | cons a rest ih =>
    intro m b s h
    simp only [bestPure] at h
    by_cases ha : scoreVal t a > m
    · rw [if_pos ha] at h
      rcases ih (scoreVal t a) (some a) s h with ⟨heq, hall⟩ | ⟨l1, l2, hrest, hlt, h1, h2⟩
      · right
        obtain rfl : a = s := Option.some.inj heq
        exact ⟨[], rest, rfl, ha, by simp, hall⟩
      · right
        refine ⟨a :: l1, l2, by simp [hrest], lt_trans ha hlt, ?_, h2⟩
        intro x hx
        rcases List.mem_cons.mp hx with rfl | hx
        · right; exact hlt
        · rcases h1 x hx with h' | h'
          · right; exact lt_of_le_of_lt h' hlt
          · right; exact h'
    · rw [if_neg ha] at h
      rcases ih m b s h with ⟨heq, hall⟩ | ⟨l1, l2, hrest, hlt, h1, h2⟩
      · left
        refine ⟨heq, ?_⟩
        intro x hx
        rcases List.mem_cons.mp hx with rfl | hx
        · exact not_lt.mp ha
        · exact hall x hx
      · right
        refine ⟨a :: l1, l2, by simp [hrest], hlt, ?_, h2⟩
        intro x hx
        rcases List.mem_cons.mp hx with rfl | hx
        · left; exact not_lt.mp ha
        · exact h1 x hx

lemma bestPure_first_max (t : TranscriptSegment) (ss : List SpeakerSegment)
    (s : SpeakerSegment) (h : bestPure t ss 0 none = some s) :
    0 < scoreVal t s ∧ ∃ l1 l2, ss = l1 ++ s :: l2 ∧
      (∀ x ∈ l1, scoreVal t x < scoreVal t s) ∧
      (∀ y ∈ l2, scoreVal t y ≤ scoreVal t s) := by
  rcases bestPure_spec t ss 0 none s h with ⟨heq, _⟩ | ⟨l1, l2, hss, hlt, h1, h2⟩
  · cases heq
  · refine ⟨hlt, l1, l2, hss, ?_, h2⟩
    intro x hx
    rcases h1 x hx with h' | h'
    · exact lt_of_le_of_lt h' hlt
    · exact h'

lemma closestLoop_isSome (t : TranscriptSegment) :
    ∀ (ss : List SpeakerSegment) (c : SpeakerSegment),
      (closestLoop t ss (some c)).isSome = true := by
  intro ss
  induction ss with
  | nil => intro c; rfl
  | cons s rest ih =>
    intro c
    simp only [closestLoop]
    split
    · exact ih _
    · exact ih _

lemma closestLoop_spec (t : TranscriptSegment) :
    ∀ (ss : List SpeakerSegment) (c s : SpeakerSegment),
      closestLoop t ss (some c) = some s →
      (s = c ∧ ∀ x ∈ ss, distVal t c ≤ distVal t x) ∨
      (∃ l1 l2, ss = l1 ++ s :: l2 ∧ distVal t s < distVal t c ∧
        (∀ x ∈ l1, distVal t s < distVal t x) ∧
        (∀ y ∈ l2, distVal t s ≤ distVal t y)) := by
  intro ss
  induction ss with
  | nil =>
    intro c s h
    left
    exact ⟨(Option.some.inj h).symm, by simp⟩
  | cons a rest ih =>
    intro c s h
    simp only [closestLoop] at h
    by_cases ha : distVal t a < distVal t c
    · rw [if_pos ha] at h
      rcases ih a s h with ⟨rfl, hall⟩ | ⟨l1, l2, hrest, hlt, h1, h2⟩
      · right
        exact ⟨[], rest, rfl, ha, by simp, hall⟩
      · right
        refine ⟨a :: l1, l2, by simp [hrest], lt_trans hlt ha, ?_, h2⟩
        intro x hx
        rcases List.mem_cons.mp hx with rfl | hx
        · exact hlt
        · exact h1 x hx
    · rw [if_neg ha] at h
      rcases ih c s h with ⟨rfl, hall⟩ | ⟨l1, l2, hrest, hlt, h1, h2⟩
      · left
        refine ⟨rfl, ?_⟩
        intro x hx
        rcases List.mem_cons.mp hx with rfl | hx
        · exact not_lt.mp ha
        · exact hall x hx
      · right
        refine ⟨a :: l1, l2, by simp [hrest], hlt, ?_, h2⟩
        intro x hx
        rcases List.mem_cons.mp hx with rfl | hx
        · exact lt_of_lt_of_le hlt (not_lt.mp ha)
        · exact h1 x hx

lemma closest_segment_spec (t : TranscriptSegment) (ss : List SpeakerSegment)
    (c : SpeakerSegment) (h : closest_segment t ss = some c) :
    ∃ l1 l2, ss = l1 ++ c :: l2 ∧
      (∀ x ∈ l1, distVal t c < distVal t x) ∧
      (∀ y ∈ l2, distVal t c ≤ distVal t y) := by
  cases ss with
  | nil => cases h
  | cons a rest =>
    have h' : closestLoop t rest (some a) = some c := h
    rcases closestLoop_spec t rest a c h' with ⟨rfl, hall⟩ | ⟨l1, l2, hrest, hlt, h1, h2⟩
    · exact ⟨[], rest, rfl, by simp, hall⟩
    · refine ⟨a :: l1, l2, by simp [hrest], ?_, h2⟩
      intro x hx
      rcases List.mem_cons.mp hx with rfl | hx
      · exact hlt
      · exact h1 x hx

lemma process_one_text (t : TranscriptSegment) (ss : List SpeakerSegment)
    (a : AttributedUtterance) (h : process_one t ss = .ok a) : a.text = t.text := by
  unfold process_one at h
  rcases hb : bestLoop t ss 0 none with e | b
  · rw [hb] at h; cases h
  · rw [hb] at h
    cases b with
    | some s => cases h; rfl
    | none =>
      rcases hc : closest_segment t ss with _ | c <;> rw [hc] at h <;>
        (cases h; rfl)

/-! ### Claim C2 -/

/-- Claim C2: for every transcript segment of positive duration, the
aligner falls back to nearest-midpoint matching exactly when every speaker
segment scores non-positively; otherwise it emits the first-seen speaker
segment with the strictly greatest (positive) score; the fallback picks
the first-seen speaker segment of minimal midpoint distance, and an empty
speaker-segment collection yields the label `"Speaker Unknown"`. -/
theorem C2_alignment_selection (t : TranscriptSegment) (ss : List SpeakerSegment)
    (h : t.start < t.stop) : C2Conclusion t ss := by
  have hd : t.stop - t.start ≠ 0 := sub_ne_zero.mpr (ne_of_gt h)
  refine ⟨?_, ?_, ?_, ?_, ?_⟩
  · rw [bestLoop_eq_pure hd]
    simp only [Except.ok.injEq]
    exact bestPure_none_iff t ss 0
  · intro s hbs
    have hps : bestPure t ss 0 none = some s := by
      have := bestLoop_eq_pure hd ss 0 none
      rw [hbs] at this
      exact (Except.ok.inj this).symm
    refine ⟨by simp [process_one, hbs], bestPure_first_max t ss s hps⟩
  · intro hnone
    simp only [process_one, hnone]
    rcases hc : closest_segment t ss with _ | c <;> simp [hc]
  · intro c hc
    exact closest_segment_spec t ss c hc
  · rintro rfl
    rfl

/-- Concrete instantiation of `C2_alignment_selection` on the scenario data. -/
theorem C2_alignment_selection_witness :
    (⟨0, 5, "hi"⟩ : TranscriptSegment).start < (⟨0, 5, "hi"⟩ : TranscriptSegment).stop ∧
    C2Conclusion ⟨0, 5, "hi"⟩ scenarioSpeakers :=
  ⟨by norm_num, C2_alignment_selection _ _ (by norm_num)⟩

/-! ### Claim C7 -/

/-- Claim C7 (counterexample): the transcript segment `{start 5, end 3}`
has `end ≤ start`, yet no division by zero occurs: both speaker segments
are scored (the negative denominator even yields positive scores), the
segment is labelled through the normal best-score path, and that label
differs from the one nearest-midpoint fallback matching would give, so
neither of the claim's two tolerated policies is applied. -/
theorem C7_counterexample :
    (⟨5, 3, "x"⟩ : TranscriptSegment).stop ≤ (⟨5, 3, "x"⟩ : TranscriptSegment).start ∧
    segment_score ⟨5, 3, "x"⟩ ⟨10, 20, "1"⟩ = .ok (7 / 2) ∧
    segment_score ⟨5, 3, "x"⟩ ⟨4, 4, "2"⟩ = .ok 1 ∧
    process_one ⟨5, 3, "x"⟩ [⟨10, 20, "1"⟩, ⟨4, 4, "2"⟩] = .ok ⟨"Speaker 1", "x"⟩ ∧
    closest_segment ⟨5, 3, "x"⟩ [⟨10, 20, "1"⟩, ⟨4, 4, "2"⟩] = some ⟨4, 4, "2"⟩ := by
  refine ⟨by norm_num, ?_, ?_, ?_, ?_⟩ <;>
    (norm_num [segment_score, process_one, bestLoop, closest_segment, closestLoop,
      distVal, scoreVal]
     all_goals decide)

/-- Claim C7 (amended): only a zero-duration transcript segment divides by
zero; the error aborts the recording whenever a speaker segment gets
scored, while with an empty speaker collection the label is
`"Speaker Unknown"`; any nonzero-duration segment (including `end < start`)
is scored by the normal overlap path. -/
theorem C7_zero_duration (t : TranscriptSegment) (s : SpeakerSegment)
    (ss : List SpeakerSegment) : C7Conclusion t s ss := by
  refine ⟨?_, ?_, ?_, rfl⟩
  · intro h
    simp [segment_score, h]
  · intro h
    exact segment_score_ok s (sub_ne_zero.mpr h)
  · intro h hne
    obtain ⟨a, rest, rfl⟩ := List.exists_cons_of_ne_nil hne
    have hz : t.stop - t.start = 0 := by rw [h, sub_self]
    simp [process_one, bestLoop, segment_score, hz]

/-- Concrete instantiation of `C7_zero_duration` at a zero-duration
segment. -/
theorem C7_zero_duration_witness :
    (⟨2, 2, "y"⟩ : TranscriptSegment).stop = (⟨2, 2, "y"⟩ : TranscriptSegment).start ∧
    segment_score ⟨2, 2, "y"⟩ ⟨0, 1, "1"⟩ = .error () ∧
    process_one ⟨2, 2, "y"⟩ [⟨0, 1, "1"⟩] = .error () :=
  ⟨rfl, (C7_zero_duration ⟨2, 2, "y"⟩ ⟨0, 1, "1"⟩ [⟨0, 1, "1"⟩]).1 rfl,
    (C7_zero_duration ⟨2, 2, "y"⟩ ⟨0, 1, "1"⟩ [⟨0, 1, "1"⟩]).2.2.1 rfl (by simp)⟩

/-! ### Claim C8 -/

/-- Claim C8 (counterexample): the aligner emits the segment's text
verbatim, not trimmed: on input text `" hi "` the emitted utterance keeps
`" hi "`, which differs from its trimmed form `"hi"`. -/
theorem C8_counterexample :
    process_audio_file [⟨0, 5, " hi "⟩] [⟨0, 5, "1"⟩] = .ok [⟨"Speaker 1", " hi "⟩] ∧
    specTrim " hi " = "hi" ∧ (" hi " : String) ≠ "hi" := by
  refine ⟨?_, by decide, by decide⟩
  norm_num [process_audio_file, process_one, bestLoop, segment_score,
    closest_segment, closestLoop]
  all_goals decide

/-- Claim C8 (amended): on success the aligner emits exactly one
attributed utterance per transcript segment, in the same order and count,
never dropping or merging segments, and each emitted utterance's text is
the segment's text verbatim. -/
theorem C8_one_output_per_segment :
    ∀ (ts : List TranscriptSegment) (ss : List SpeakerSegment)
      (out : List AttributedUtterance),
      process_audio_file ts ss = .ok out → C8Conclusion ts ss out := by
  intro ts
  induction ts with
  | nil =>
    intro ss out h
    obtain rfl : ([] : List AttributedUtterance) = out := Except.ok.inj h
    exact ⟨rfl, by intro j hj; cases hj⟩
  | cons t ts ih =>
    intro ss out h
    unfold process_audio_file at h
    rcases hp : process_one t ss with e | a
    · rw [hp] at h; cases h
    · rw [hp] at h
      rcases hr : process_audio_file ts ss with e | rest
      · rw [hr] at h; cases h
      · rw [hr] at h
        obtain rfl : a :: rest = out := Except.ok.inj h
        obtain ⟨hlen, hpt⟩ := ih ss rest hr
        refine ⟨by simp [hlen], ?_⟩
        intro j hj
        cases j with
        | zero => exact ⟨hp, process_one_text t ss a hp⟩
        | succ j => exact hpt j (Nat.lt_of_succ_lt_succ hj)

/-! ### Windowizer lemmas -/

lemma find_valid_pairs_short (i : Nat) (dps : List DialoguePair)
    (h : dps.length < 2) : PD3.find_valid_pairs i dps = [] := by
  cases dps with
  | nil => rfl
  | cons a rest =>
    cases rest with
    | nil => rfl
    | cons b rest2 =>
      simp only [List.length_cons] at h
      omega

lemma take_drop_slice {α : Type} [Inhabited α] (l : List α) (k s : Nat)
    (hk : k < l.length) :
    (l.take (k + 1)).drop s =
      (List.range' s (k + 1 - s)).map fun j => l.getD j default := by
  apply List.ext_getElem
  · simp
    omega
  · intro i h1 h2
    have hi : s + i < l.length := by
      simp only [List.length_drop, List.length_take] at h1
      omega
    calc ((l.take (k + 1)).drop s)[i] = l.get ⟨s + i, hi⟩ := by
          simp [List.getElem_drop, List.getElem_take, List.get_eq_getElem]
      _ = ((List.range' s (k + 1 - s)).map fun j => l.getD j default)[i] := by
          simp [List.getElem_range', List.getD_eq_getElem l default hi,
            List.getElem?_eq_getElem hi, List.get_eq_getElem]

/-! ### Claim C3 -/

/-- Claim C3: for every message sequence and windowSize at least 1, the
windowizer emits exactly one window per valid exchange, the window for
exchange `k` holding the exchanges from `max (0, k - windowSize + 1)`
through `k` in order, each contributing its human then its gpt message;
in particular on `sixMsgs` with windowSize 2 the window for exchange 2
holds exactly exchanges 1 and 2 (4 messages) and the window for exchange
0 only exchange 0 (2 messages). -/
theorem C3_window_per_exchange (dps : List DialoguePair) (w : Nat) (_hw : 1 ≤ w) :
    ((PD3.create_sliding_window_conversations dps w).length =
      (PD3.find_valid_pairs 0 dps).length ∧
     ∀ k, k < (PD3.find_valid_pairs 0 dps).length →
      (PD3.create_sliding_window_conversations dps w).getD k [] =
        claimWindow (PD3.find_valid_pairs 0 dps) w k) ∧
    (PD3.create_sliding_window_conversations sixMsgs 2).getD 2 [] =
      [⟨MsgRole.human, "h1"⟩, ⟨MsgRole.gpt, "g1"⟩,
       ⟨MsgRole.human, "h2"⟩, ⟨MsgRole.gpt, "g2"⟩] ∧
    (PD3.create_sliding_window_conversations sixMsgs 2).getD 0 [] =
      [⟨MsgRole.human, "h0"⟩, ⟨MsgRole.gpt, "g0"⟩] := by
  refine ⟨?_, by decide, by decide⟩
  by_cases h2 : dps.length < 2
  · rw [find_valid_pairs_short 0 dps h2]
    constructor
    · simp [PD3.create_sliding_window_conversations, if_pos h2,
        find_valid_pairs_short 0 dps h2]
    · intro k hk
      simp at hk
  · constructor
    · simp [PD3.create_sliding_window_conversations, if_neg h2]
    · intro k hk
      have hmap : (PD3.create_sliding_window_conversations dps w).getD k [] =
          (((PD3.find_valid_pairs 0 dps).take (k + 1)).drop (k + 1 - w)).flatMap
            (fun e => [e.humanMsg, e.gptMsg]) := by
        simp [PD3.create_sliding_window_conversations, if_neg h2,
          List.getD_eq_getElem?_getD, List.getElem?_map, List.getElem?_range hk]
      rw [hmap, take_drop_slice _ k (k + 1 - w) hk, List.flatMap_map]
      simp [claimWindow, exchangeMsgs]

/-- Concrete instantiation of `C3_window_per_exchange`. -/
theorem C3_window_per_exchange_witness :
    (1 : Nat) ≤ 2 ∧
    (((PD3.create_sliding_window_conversations sixMsgs 2).length =
       (PD3.find_valid_pairs 0 sixMsgs).length ∧
      ∀ k, k < (PD3.find_valid_pairs 0 sixMsgs).length →
       (PD3.create_sliding_window_conversations sixMsgs 2).getD k [] =
         claimWindow (PD3.find_valid_pairs 0 sixMsgs) 2 k) ∧
     (PD3.create_sliding_window_conversations sixMsgs 2).getD 2 [] =
       [⟨MsgRole.human, "h1"⟩, ⟨MsgRole.gpt, "g1"⟩,
        ⟨MsgRole.human, "h2"⟩, ⟨MsgRole.gpt, "g2"⟩] ∧
     (PD3.create_sliding_window_conversations sixMsgs 2).getD 0 [] =
       [⟨MsgRole.human, "h0"⟩, ⟨MsgRole.gpt, "g0"⟩]) :=
  ⟨by decide, C3_window_per_exchange sixMsgs 2 (by decide)⟩

/-! ### Claim C4 -/

/-- Claim C4: the exchange scan records the index pair `(i, i+1)` and
advances the index by 2 exactly when the message at `i` is human and the
message at `i+1` is gpt, and otherwise advances by 1 (stopping when fewer
than two messages remain); consequently on `[human, gpt, human, human,
gpt]` the valid exchanges found are exactly `(0, 1)` and `(3, 4)`. -/
theorem C4_exchange_scan :
    (∀ (i : Nat) (a b : DialoguePair) (rest : List DialoguePair),
      PD3.find_valid_pairs i (a :: b :: rest) =
        if a.fromRole = MsgRole.human ∧ b.fromRole = MsgRole.gpt then
          ⟨i, i + 1, a, b⟩ :: PD3.find_valid_pairs (i + 2) rest
        else PD3.find_valid_pairs (i + 1) (b :: rest)) ∧
    (∀ (i : Nat) (a : DialoguePair), PD3.find_valid_pairs i [a] = []) ∧
    (∀ i : Nat, PD3.find_valid_pairs i [] = []) ∧
    (PD3.find_valid_pairs 0
        [⟨MsgRole.human, "m0"⟩, ⟨MsgRole.gpt, "m1"⟩, ⟨MsgRole.human, "m2"⟩,
         ⟨MsgRole.human, "m3"⟩, ⟨MsgRole.gpt, "m4"⟩]).map
        (fun e => (e.humanIdx, e.gptIdx)) = [(0, 1), (3, 4)] :=
  ⟨fun _ _ _ _ => rfl, fun _ _ => rfl, fun _ => rfl, by decide⟩

/-- Concrete instantiation of `C8_one_output_per_segment`. -/
theorem C8_one_output_per_segment_witness :
    process_audio_file [⟨0, 5, "hi"⟩] [⟨0, 5, "1"⟩] = .ok [⟨"Speaker 1", "hi"⟩] ∧
    C8Conclusion [⟨0, 5, "hi"⟩] [⟨0, 5, "1"⟩] [⟨"Speaker 1", "hi"⟩] := by
  have h : process_audio_file [⟨0, 5, "hi"⟩] [⟨0, 5, "1"⟩] = .ok [⟨"Speaker 1", "hi"⟩] := by
    norm_num [process_audio_file, process_one, bestLoop, segment_score]
    all_goals decide
  exact ⟨h, C8_one_output_per_segment _ _ _ h⟩

/-! ### Grouper lemmas -/

lemma roleOf_client_lookup {p : SpeakerProfile} {s : String}
    (h : roleOf p s = some GRole.client) : ∃ pn, lookupPartner p s = some pn := by
  unfold roleOf at h
  split at h
  · cases h
  split at h
  · cases h
  split at h
  · next hsome => exact Option.isSome_iff_exists.mp hsome
  · cases h

lemma stateInv_init : stateInv initState := by
  refine ⟨fun _ => ⟨rfl, rfl⟩, fun r hr => ?_, fun g hg => ?_, ?_⟩
  · cases hr
  · cases hg
  · exact List.chain'_nil

lemma flattenState_appendLine (st : GState) (line : String) (sp : Option String) :
    flattenState (appendLine st line sp) = flattenState st ++ [line] := by
  simp [flattenState, appendLine]

lemma flattenState_close (role : GRole) (st : GState)
    (h : st.curRole = none → st.curContent = []) :
    flattenState (closeIfNeeded role st) = flattenState st := by
  unfold closeIfNeeded
  split
  · rfl
  · cases hcur : st.curRole with
    | none => simp [flattenState, h hcur]
    | some r => simp [flattenState]

lemma stateInv_step (role : GRole) (st : GState) (line : String) (sp : Option String)
    (h : stateInv st) : stateInv (appendLine (closeIfNeeded role st) line sp) := by
  obtain ⟨hnone, hsome, hne, hchain⟩ := h
  by_cases hc : st.curRole = some role
  · rw [closeIfNeeded, if_pos hc]
    refine ⟨?_, ?_, ?_, ?_⟩
    · intro h0
      simp only [appendLine] at h0
      rw [hc] at h0
      cases h0
    · intro r hr
      simp only [appendLine] at hr ⊢
      obtain rfl : role = r := by rw [hc] at hr; exact Option.some.inj hr
      exact ⟨by simp, (hsome role hc).2⟩
    · intro g hg
      exact hne g (by simpa [appendLine] using hg)
    · simpa [appendLine] using hchain
  · rw [closeIfNeeded, if_neg hc]
    cases hcur : st.curRole with
    | none =>
      obtain ⟨hg0, _⟩ := hnone hcur
      refine ⟨?_, fun r hr => ?_, fun g hg => ?_, ?_⟩
      · intro h0
        simp only [appendLine] at h0
        cases h0
      · simp only [appendLine] at hr ⊢
        refine ⟨by simp, ?_⟩
        intro g hg
        rw [hg0] at hg
        cases hg
      · rw [hg0] at hg
        cases hg
      · rw [hg0]
        exact List.chain'_nil
    | some r' =>
      have hr' : r' ≠ role := fun hrr => hc (by rw [hcur, hrr])
      obtain ⟨hcc, hlast⟩ := hsome r' hcur
      refine ⟨?_, fun r hr => ?_, fun g hg => ?_, ?_⟩
      · intro h0
        simp only [appendLine] at h0
        cases h0
      · simp only [appendLine] at hr ⊢
        obtain rfl : role = r := Option.some.inj hr
        refine ⟨by simp, ?_⟩
        intro g hg
        rw [List.getLast?_concat] at hg
        obtain rfl : (⟨r', st.curContent⟩ : Group) = g := by simpa using hg
        exact hr'
      · simp only [appendLine] at hg
        rcases List.mem_append.mp hg with hg | hg
        · exact hne g hg
        · obtain rfl : g = ⟨r', st.curContent⟩ := by simpa using hg
          exact hcc
      · simp only [appendLine]
        refine List.Chain'.append hchain (List.chain'_singleton _) ?_
        intro x hx y hy
        obtain rfl : (⟨r', st.curContent⟩ : Group) = y := by simpa using hy
        exact hlast x hx

lemma stateInv_after_step {stepFn : SpeakerProfile → GState → Utterance → GState}
    (hshape : stepShape stepFn) (p : SpeakerProfile) (st : GState) (u : Utterance)
    (h : stateInv st) : stateInv (stepFn p st u) := by
  rcases hshape p st u with ⟨_, hstep⟩ | ⟨role, line, sp, _, _, hstep⟩
  · rw [hstep]; exact h
  · rw [hstep]; exact stateInv_step role st line sp h

lemma groupLines_finalize (st : GState) (h : st.curRole = none → st.curContent = []) :
    groupLines (finalize st) = flattenState st := by
  unfold finalize flattenState groupLines
  cases hr : st.curRole with
  | none => simp [h hr]
  | some r => simp

lemma finalize_content_ne (st : GState) (h : stateInv st) :
    ∀ g ∈ finalize st, g.content ≠ [] := by
  obtain ⟨_, hsome, hne, _⟩ := h
  unfold finalize
  cases hr : st.curRole with
  | none => exact hne
  | some r =>
    intro g hg
    rcases List.mem_append.mp hg with hg | hg
    · exact hne g hg
    · obtain rfl : g = ⟨r, st.curContent⟩ := by simpa using hg
      exact (hsome r hr).1

lemma finalize_chain (st : GState) (h : stateInv st) :
    List.Chain' (fun a b => a.role ≠ b.role) (finalize st) := by
  obtain ⟨_, hsome, _, hchain⟩ := h
  unfold finalize
  cases hr : st.curRole with
  | none => exact hchain
  | some r =>
    refine List.Chain'.append hchain (List.chain'_singleton _) ?_
    intro x hx y hy
    obtain rfl : (⟨r, st.curContent⟩ : Group) = y := by simpa using hy
    exact (hsome r hr).2 x hx

lemma foldl_step_spec {stepFn : SpeakerProfile → GState → Utterance → GState}
    (hshape : stepShape stepFn) (p : SpeakerProfile) :
    ∀ (utts : List Utterance) (st : GState), stateInv st →
      stateInv (List.foldl (stepFn p) st utts) ∧
      ∃ L, flattenState (List.foldl (stepFn p) st utts) = flattenState st ++ L ∧
        List.Forall₂ (lineFromUtt p) L (mappedUtterances p utts) := by
  intro utts
  induction utts with
  | nil =>
    intro st h
    exact ⟨h, [], by simp, by simp [mappedUtterances]⟩
  | cons u rest ih =>
    intro st h
    rcases hshape p st u with ⟨hnone, hstep⟩ | ⟨role, line, sp, hrole, hline, hstep⟩
    · rw [List.foldl_cons, hstep]
      obtain ⟨hinv, L, hflat, hrel⟩ := ih st h
      refine ⟨hinv, L, hflat, ?_⟩
      have hm : mappedUtterances p (u :: rest) = mappedUtterances p rest := by
        simp [mappedUtterances, List.filter_cons, hnone]
      rw [hm]
      exact hrel
    · rw [List.foldl_cons, hstep]
      have h1 : stateInv (appendLine (closeIfNeeded role st) line sp) :=
        stateInv_step role st line sp h
      obtain ⟨hinv, L, hflat, hrel⟩ := ih _ h1
      refine ⟨hinv, line :: L, ?_, ?_⟩
      · rw [hflat, flattenState_appendLine,
          flattenState_close role st (fun hn => (h.1 hn).2)]
        simp
      · have hm : mappedUtterances p (u :: rest) = u :: mappedUtterances p rest := by
          simp [mappedUtterances, List.filter_cons, hrole]
        rw [hm]
        exact List.Forall₂.cons hline hrel

lemma foldl_step_filter {stepFn : SpeakerProfile → GState → Utterance → GState}
    (hshape : stepShape stepFn) (p : SpeakerProfile) :
    ∀ (utts : List Utterance) (st : GState),
      List.foldl (stepFn p) st utts =
        List.foldl (stepFn p) st (mappedUtterances p utts) := by
  intro utts
  induction utts with
  | nil => intro st; rfl
  | cons u rest ih =>
    intro st
    rcases hshape p st u with ⟨hnone, hstep⟩ | ⟨role, line, sp, hrole, _, _⟩
    · have hm : mappedUtterances p (u :: rest) = mappedUtterances p rest := by
        simp [mappedUtterances, List.filter_cons, hnone]
      rw [hm, List.foldl_cons, hstep]
      exact ih st
    · have hm : mappedUtterances p (u :: rest) = u :: mappedUtterances p rest := by
        simp [mappedUtterances, List.filter_cons, hrole]
      rw [hm, List.foldl_cons, List.foldl_cons]
      exact ih _

lemma forall₂_mem_left {α β : Type} {R : α → β → Prop} :
    ∀ {l1 : List α} {l2 : List β}, List.Forall₂ R l1 l2 →
      ∀ x ∈ l1, ∃ y, y ∈ l2 ∧ R x y := by
  intro l1 l2 h
  induction h with
  | nil => intro x hx; cases hx
  | cons hr _ ih =>
    intro x hx
    rcases List.mem_cons.mp hx with rfl | hx
    · exact ⟨_, .head _, hr⟩
    · obtain ⟨y, hy, hxy⟩ := ih x hx
      exact ⟨y, .tail _ hy, hxy⟩

lemma pd_step_shape : stepShape PD.step := by
  intro p st u
  cases hr : roleOf p u.speaker with
  | none =>
    left
    exact ⟨rfl, by simp [PD.step, hr]⟩
  | some role =>
    right
    cases role with
    | therapist =>
      exact ⟨GRole.therapist, u.text, (closeIfNeeded GRole.therapist st).curSpeaker,
        rfl, Or.inl rfl, by simp [PD.step, hr]⟩
    | client =>
      obtain ⟨pn, hpn⟩ := roleOf_client_lookup hr
      refine ⟨GRole.client, "[" ++ pn ++ "]: " ++ u.text,
        (closeIfNeeded GRole.client st).curSpeaker, rfl, Or.inr ⟨pn, hpn, rfl⟩, ?_⟩
      simp [PD.step, hr, hpn]

lemma pd3_step_shape : stepShape PD3.step := by
  intro p st u
  cases hr : roleOf p u.speaker with
  | none =>
    left
    exact ⟨rfl, by simp [PD3.step, hr]⟩
  | some role =>
    right
    cases role with
    | therapist =>
      exact ⟨GRole.therapist, u.text, (closeIfNeeded GRole.therapist st).curSpeaker,
        rfl, Or.inl rfl, by simp [PD3.step, hr]⟩
    | client =>
      obtain ⟨pn, hpn⟩ := roleOf_client_lookup hr
      by_cases hsp : (closeIfNeeded GRole.client st).curSpeaker = some pn
      · refine ⟨GRole.client, u.text, (closeIfNeeded GRole.client st).curSpeaker,
          rfl, Or.inl rfl, ?_⟩
        simp [PD3.step, hr, hpn, hsp]
      · refine ⟨GRole.client, "[" ++ pn ++ "]: " ++ u.text, some pn,
          rfl, Or.inr ⟨pn, hpn, rfl⟩, ?_⟩
        simp [PD3.step, hr, hpn, hsp]

lemma pd_group_forall₂ (p : SpeakerProfile) (utts : List Utterance) :
    List.Forall₂ (lineFromUtt p)
      (groupLines (PD.group_consecutive_utterances p utts))
      (mappedUtterances p utts) := by
  obtain ⟨hinv, L, hflat, hrel⟩ :=
    foldl_step_spec pd_step_shape p utts initState stateInv_init
  have h1 : groupLines (finalize (List.foldl (PD.step p) initState utts)) =
      flattenState (List.foldl (PD.step p) initState utts) :=
    groupLines_finalize _ (fun hn => (hinv.1 hn).2)
  rw [PD.group_consecutive_utterances, h1, hflat]
  simpa [flattenState, initState] using hrel

lemma pd3_group_forall₂ (p : SpeakerProfile) (utts : List Utterance) :
    List.Forall₂ (lineFromUtt p)
      (groupLines (PD3.group_consecutive_utterances p utts))
      (mappedUtterances p utts) := by
  obtain ⟨hinv, L, hflat, hrel⟩ :=
    foldl_step_spec pd3_step_shape p utts initState stateInv_init
  have h1 : groupLines (finalize (List.foldl (PD3.step p) initState utts)) =
      flattenState (List.foldl (PD3.step p) initState utts) :=
    groupLines_finalize _ (fun hn => (hinv.1 hn).2)
  rw [PD3.group_consecutive_utterances, h1, hflat]
  simpa [flattenState, initState] using hrel

lemma pd_msgOf_ne {g1 g2 : Group} (h : g1.role ≠ g2.role) :
    (PD.msgOf g1).fromRole ≠ (PD.msgOf g2).fromRole := by
  cases g1 with
  | mk r1 c1 =>
    cases g2 with
    | mk r2 c2 => cases r1 <;> cases r2 <;> simp_all [PD.msgOf]

lemma pd3_msgOf_ne {g1 g2 : Group} (h : g1.role ≠ g2.role) :
    (PD3.msgOf g1).fromRole ≠ (PD3.msgOf g2).fromRole := by
  cases g1 with
  | mk r1 c1 =>
    cases g2 with
    | mk r2 c2 => cases r1 <;> cases r2 <;> simp_all [PD3.msgOf]

lemma chain_msgs_pd (gs : List Group)
    (h : List.Chain' (fun a b => a.role ≠ b.role) gs) :
    List.Chain' (fun a b => a.fromRole ≠ b.fromRole)
      (PD.convert_to_training_format gs) := by
  rw [PD.convert_to_training_format, List.chain'_map]
  exact h.imp fun _ _ hab => pd_msgOf_ne hab

lemma chain_msgs_pd3 (gs : List Group)
    (h : List.Chain' (fun a b => a.role ≠ b.role) gs) :
    List.Chain' (fun a b => a.fromRole ≠ b.fromRole)
      (PD3.create_dialogue_pairs gs) := by
  rw [PD3.create_dialogue_pairs, List.chain'_map]
  exact h.imp fun _ _ hab => pd3_msgOf_ne hab

lemma stateMatches_close (role : GRole) (s1 s3 : GState) (h : stateMatches s1 s3) :
    stateMatches (closeIfNeeded role s1) (closeIfNeeded role s3) ∧
    (closeIfNeeded role s1).curRole = some role := by
  obtain ⟨hrole, hgrp, hf, he⟩ := h
  by_cases hc : s1.curRole = some role
  · have hc3 : s3.curRole = some role := by rw [← hrole]; exact hc
    rw [closeIfNeeded, closeIfNeeded, if_pos hc, if_pos hc3]
    exact ⟨⟨hrole, hgrp, hf, he⟩, hc⟩
  · have hc3 : ¬s3.curRole = some role := by rw [← hrole]; exact hc
    rw [closeIfNeeded, closeIfNeeded, if_neg hc, if_neg hc3]
    refine ⟨⟨rfl, ?_, List.Forall₂.nil, fun _ => rfl⟩, rfl⟩
    cases hcur : s1.curRole with
    | none =>
      have hcur3 : s3.curRole = none := by rw [← hrole]; exact hcur
      simp only [hcur, hcur3]
      exact hgrp
    | some r =>
      have hcur3 : s3.curRole = some r := by rw [← hrole]; exact hcur
      simp only [hcur, hcur3]
      refine List.rel_append hgrp (List.Forall₂.cons ⟨rfl, hf, ?_⟩ List.Forall₂.nil)
      intro hth
      exact he (hcur.trans (congrArg some hth))

lemma stateMatches_appendLine (s1 s3 : GState) (l1 l3 : String)
    (sp1 sp3 : Option String) (h : stateMatches s1 s3) (hl : lineUpToTag l1 l3)
    (hth : s1.curRole = some GRole.therapist → l1 = l3) :
    stateMatches (appendLine s1 l1 sp1) (appendLine s3 l3 sp3) := by
  obtain ⟨hcr, hcg, hf, he⟩ := h
  refine ⟨by simp [appendLine, hcr], by simpa [appendLine] using hcg, ?_, ?_⟩
  · simp only [appendLine]
    exact List.rel_append hf (List.Forall₂.cons hl List.Forall₂.nil)
  · simp only [appendLine]
    intro hth'
    rw [he hth', hth hth']

lemma stateMatches_step (p : SpeakerProfile) (u : Utterance) (s1 s3 : GState)
    (h : stateMatches s1 s3) : stateMatches (PD.step p s1 u) (PD3.step p s3 u) := by
  cases hr : roleOf p u.speaker with
  | none => simpa [PD.step, PD3.step, hr] using h
  | some role =>
    obtain ⟨hclose, hrole1⟩ := stateMatches_close role s1 s3 h
    cases role with
    | therapist =>
      simp only [PD.step, PD3.step, hr]
      exact stateMatches_appendLine _ _ _ _ _ _ hclose (Or.inl rfl) fun _ => rfl
    | client =>
      obtain ⟨pn, hpn⟩ := roleOf_client_lookup hr
      simp only [PD.step, PD3.step, hr, hpn, Option.getD_some]
      split
      · refine stateMatches_appendLine _ _ _ _ _ _ hclose
          (Or.inr ⟨pn, u.text, rfl, rfl⟩) ?_
        intro hth
        rw [hrole1] at hth
        exact absurd hth (by simp)
      · exact stateMatches_appendLine _ _ _ _ _ _ hclose (Or.inl rfl) fun _ => rfl

lemma stateMatches_foldl (p : SpeakerProfile) :
    ∀ (utts : List Utterance) (s1 s3 : GState), stateMatches s1 s3 →
      stateMatches (List.foldl (PD.step p) s1 utts)
        (List.foldl (PD3.step p) s3 utts) := by
  intro utts
  induction utts with
  | nil => intro s1 s3 h; exact h
  | cons u rest ih =>
    intro s1 s3 h
    exact ih _ _ (stateMatches_step p u s1 s3 h)

lemma stateMatches_finalize (s1 s3 : GState) (h : stateMatches s1 s3) :
    List.Forall₂ groupMatches (finalize s1) (finalize s3) := by
  obtain ⟨hcr, hcg, hf, he⟩ := h
  unfold finalize
  cases hcur : s1.curRole with
  | none =>
    have hcur3 : s3.curRole = none := by rw [← hcr]; exact hcur
    simp only [hcur, hcur3]
    exact hcg
  | some r =>
    have hcur3 : s3.curRole = some r := by rw [← hcr]; exact hcur
    simp only [hcur, hcur3]
    refine List.rel_append hcg (List.Forall₂.cons ⟨rfl, hf, ?_⟩ List.Forall₂.nil)
    intro hth
    exact he (hcur.trans (congrArg some hth))

/-! ### Claim C6 -/

/-- Claim C6 (counterexample): a client line carries the
`"[partnerName]: "` identifier, so concatenating TurnGroup lines does not
literally reproduce the utterance's text: one mapped client utterance with
text `"hi"` yields the single line `"[Partner A]: hi"` in both grouper
variants. -/
theorem C6_counterexample :
    PD.group_consecutive_utterances ⟨[], [], [("S1", "Partner A")]⟩ [⟨"S1", "hi"⟩] =
      [⟨GRole.client, ["[Partner A]: hi"]⟩] ∧
    PD3.group_consecutive_utterances ⟨[], [], [("S1", "Partner A")]⟩ [⟨"S1", "hi"⟩] =
      [⟨GRole.client, ["[Partner A]: hi"]⟩] ∧
    ("[Partner A]: hi" : String) ≠ "hi" :=
  ⟨by decide, by decide, by decide⟩

/-- Claim C6 (amended): in both grouper variants, concatenating all
TurnGroup lines in emission order corresponds one-to-one, in original
order, to the utterances whose speaker is neither excluded nor unmapped —
one line per mapped utterance, each line being the utterance's text either
verbatim or with its partner's `"[partnerName]: "` identifier prepended. -/
theorem C6_grouping_lossless (p : SpeakerProfile) (utts : List Utterance) :
    List.Forall₂ (lineFromUtt p)
      (groupLines (PD.group_consecutive_utterances p utts))
      (mappedUtterances p utts) ∧
    List.Forall₂ (lineFromUtt p)
      (groupLines (PD3.group_consecutive_utterances p utts))
      (mappedUtterances p utts) :=
  ⟨pd_group_forall₂ p utts, pd3_group_forall₂ p utts⟩

/-! ### Claim C5 -/

/-- Claim C5: in both grouper variants, every line of every emitted
TurnGroup originates from an input utterance whose speaker is neither
excluded nor unmapped, and dropping the excluded/unmapped utterances up
front leaves the output unchanged (the drop has no effect on any group). -/
theorem C5_no_excluded_line (p : SpeakerProfile) (utts : List Utterance) :
    (∀ g ∈ PD.group_consecutive_utterances p utts, ∀ line ∈ g.content,
      ∃ u, u ∈ utts ∧ (roleOf p u.speaker).isSome = true ∧ lineFromUtt p line u) ∧
    (∀ g ∈ PD3.group_consecutive_utterances p utts, ∀ line ∈ g.content,
      ∃ u, u ∈ utts ∧ (roleOf p u.speaker).isSome = true ∧ lineFromUtt p line u) ∧
    PD.group_consecutive_utterances p utts =
      PD.group_consecutive_utterances p (mappedUtterances p utts) ∧
    PD3.group_consecutive_utterances p utts =
      PD3.group_consecutive_utterances p (mappedUtterances p utts) := by
  refine ⟨?_, ?_, ?_, ?_⟩
  · intro g hg line hline
    have hmem : line ∈ groupLines (PD.group_consecutive_utterances p utts) :=
      List.mem_flatMap.mpr ⟨g, hg, hline⟩
    obtain ⟨u, hu, hrel⟩ := forall₂_mem_left (pd_group_forall₂ p utts) line hmem
    rw [mappedUtterances] at hu
    obtain ⟨hu1, hu2⟩ := List.mem_filter.mp hu
    exact ⟨u, hu1, hu2, hrel⟩
  · intro g hg line hline
    have hmem : line ∈ groupLines (PD3.group_consecutive_utterances p utts) :=
      List.mem_flatMap.mpr ⟨g, hg, hline⟩
    obtain ⟨u, hu, hrel⟩ := forall₂_mem_left (pd3_group_forall₂ p utts) line hmem
    rw [mappedUtterances] at hu
    obtain ⟨hu1, hu2⟩ := List.mem_filter.mp hu
    exact ⟨u, hu1, hu2, hrel⟩
  · rw [PD.group_consecutive_utterances, PD.group_consecutive_utterances,
      foldl_step_filter pd_step_shape p utts initState]
  · rw [PD3.group_consecutive_utterances, PD3.group_consecutive_utterances,
      foldl_step_filter pd3_step_shape p utts initState]

/-- Concrete instantiation of `C5_no_excluded_line`: the only emitted line
of a run with one therapist and one excluded utterance originates from the
kept therapist utterance. -/
theorem C5_no_excluded_line_witness :
    ∃ u, u ∈ [(⟨"Speaker 1", "hello"⟩ : Utterance), ⟨"Speaker 2", "noise"⟩] ∧
      (roleOf ⟨["Speaker 1"], ["Speaker 2"], []⟩ u.speaker).isSome = true ∧
      lineFromUtt ⟨["Speaker 1"], ["Speaker 2"], []⟩ "hello" u :=
  (C5_no_excluded_line ⟨["Speaker 1"], ["Speaker 2"], []⟩
      [⟨"Speaker 1", "hello"⟩, ⟨"Speaker 2", "noise"⟩]).1
    ⟨GRole.therapist, ["hello"]⟩ (by decide) "hello" (by decide)

/-! ### Claim C9 -/

/-- Claim C9: in both converter variants, every emitted TurnGroup has at
least one line, consecutive TurnGroups have different roles, and the
derived dialogue-message sequence strictly alternates between human and
gpt. -/
theorem C9_alternation (p : SpeakerProfile) (utts : List Utterance) :
    ((∀ g ∈ PD.group_consecutive_utterances p utts, g.content ≠ []) ∧
     List.Chain' (fun a b => a.role ≠ b.role)
       (PD.group_consecutive_utterances p utts) ∧
     List.Chain' (fun a b => a.fromRole ≠ b.fromRole)
       (PD.convert_to_training_format (PD.group_consecutive_utterances p utts))) ∧
    ((∀ g ∈ PD3.group_consecutive_utterances p utts, g.content ≠ []) ∧
     List.Chain' (fun a b => a.role ≠ b.role)
       (PD3.group_consecutive_utterances p utts) ∧
     List.Chain' (fun a b => a.fromRole ≠ b.fromRole)
       (PD3.create_dialogue_pairs (PD3.group_consecutive_utterances p utts))) := by
  obtain ⟨hinv1, -⟩ := foldl_step_spec pd_step_shape p utts initState stateInv_init
  obtain ⟨hinv3, -⟩ := foldl_step_spec pd3_step_shape p utts initState stateInv_init
  have hch1 := finalize_chain _ hinv1
  have hch3 := finalize_chain _ hinv3
  exact ⟨⟨finalize_content_ne _ hinv1, hch1, chain_msgs_pd _ hch1⟩,
         ⟨finalize_content_ne _ hinv3, hch3, chain_msgs_pd3 _ hch3⟩⟩

/-- Concrete instantiation of `C9_alternation` on the scenario data. -/
theorem C9_alternation_witness :
    ((∀ g ∈ PD.group_consecutive_utterances scenarioProfileLabels
        (toUtterances scenarioAttributed), g.content ≠ []) ∧
     List.Chain' (fun a b => a.role ≠ b.role)
       (PD.group_consecutive_utterances scenarioProfileLabels
         (toUtterances scenarioAttributed)) ∧
     List.Chain' (fun a b => a.fromRole ≠ b.fromRole)
       (PD.convert_to_training_format (PD.group_consecutive_utterances
         scenarioProfileLabels (toUtterances scenarioAttributed)))) ∧
    ((∀ g ∈ PD3.group_consecutive_utterances scenarioProfileLabels
        (toUtterances scenarioAttributed), g.content ≠ []) ∧
     List.Chain' (fun a b => a.role ≠ b.role)
       (PD3.group_consecutive_utterances scenarioProfileLabels
         (toUtterances scenarioAttributed)) ∧
     List.Chain' (fun a b => a.fromRole ≠ b.fromRole)
       (PD3.create_dialogue_pairs (PD3.group_consecutive_utterances
         scenarioProfileLabels (toUtterances scenarioAttributed)))) :=
  C9_alternation scenarioProfileLabels (toUtterances scenarioAttributed)

/-! ### Claim C10 -/

/-- Claim C10: on every input, the two grouper policies emit the same
number of TurnGroups, position by position of equal role and equal line
count, with therapist groups literally identical; corresponding lines
differ only by the optional `"[partnerName]: "` client identifier. -/
theorem C10_policy_refinement (p : SpeakerProfile) (utts : List Utterance) :
    (PD.group_consecutive_utterances p utts).length =
      (PD3.group_consecutive_utterances p utts).length ∧
    List.Forall₂ groupMatches (PD.group_consecutive_utterances p utts)
      (PD3.group_consecutive_utterances p utts) := by
  have h := stateMatches_finalize _ _
    (stateMatches_foldl p utts initState initState
      ⟨rfl, List.Forall₂.nil, List.Forall₂.nil, fun _ => rfl⟩)
  exact ⟨h.length_eq, h⟩

/-- Concrete instantiation of `C10_policy_refinement`. -/
theorem C10_policy_refinement_witness :
    (PD.group_consecutive_utterances scenarioProfileLabels
        (toUtterances scenarioAttributed)).length =
      (PD3.group_consecutive_utterances scenarioProfileLabels
        (toUtterances scenarioAttributed)).length ∧
    List.Forall₂ groupMatches
      (PD.group_consecutive_utterances scenarioProfileLabels
        (toUtterances scenarioAttributed))
      (PD3.group_consecutive_utterances scenarioProfileLabels
        (toUtterances scenarioAttributed)) :=
  C10_policy_refinement scenarioProfileLabels (toUtterances scenarioAttributed)

/-! ### Claim C1 -/

/-- Claim C1 (counterexample): on the scenario data the aligner formats
labels as `f"Speaker {tag}"`, so the attributed lines are
`"Speaker A: hi"` and `"Speaker B: how are you"`, not the claimed
`"A: hi"` and `"B: how are you"`; and under the profile exactly as claimed
(keyed by the bare tags `"A"`, `"B"`) every attributed utterance is
unmapped, so the grouper emits no TurnGroup at all instead of the two the
claim expects. -/
theorem C1_counterexample :
    process_audio_file scenarioTranscript scenarioSpeakers = .ok scenarioAttributed ∧
    scenarioAttributed.map attributedLine =
      ["Speaker A: hi", "Speaker B: how are you"] ∧
    ("Speaker A: hi" : String) ≠ "A: hi" ∧
    PD3.group_consecutive_utterances scenarioProfileClaim
      (toUtterances scenarioAttributed) = [] ∧
    ([] : List Group) ≠ scenarioGroups := by
  refine ⟨?_, by decide, by decide, by decide, by decide⟩
  norm_num [scenarioTranscript, scenarioSpeakers, scenarioAttributed,
    process_audio_file, process_one, bestLoop, segment_score]
  all_goals decide

/-- Claim C1 (amended): the end-to-end scenario holds once the
SpeakerProfile is keyed by the labels the aligner actually emits
(`"Speaker A"`, `"Speaker B"`): attributed lines `"Speaker A: hi"` and
`"Speaker B: how are you"`, TurnGroups `[{therapist: ["hi"]},
{client: ["[Partner A]: how are you"]}]`, DialoguePairs `[{gpt, "hi"},
{human, "[Partner A]: how are you"}]`, and zero ConversationWindows for
every windowSize at least 1 (no human-before-gpt adjacency exists). -/
theorem C1_end_to_end :
    process_audio_file scenarioTranscript scenarioSpeakers = .ok scenarioAttributed ∧
    scenarioAttributed.map attributedLine =
      ["Speaker A: hi", "Speaker B: how are you"] ∧
    PD3.group_consecutive_utterances scenarioProfileLabels
      (toUtterances scenarioAttributed) = scenarioGroups ∧
    PD3.create_dialogue_pairs scenarioGroups = scenarioPairs ∧
    ∀ w : Nat, 1 ≤ w →
      PD3.create_sliding_window_conversations scenarioPairs w = [] := by
  refine ⟨?_, by decide, by decide, by decide, ?_⟩
  · norm_num [scenarioTranscript, scenarioSpeakers, scenarioAttributed,
      process_audio_file, process_one, bestLoop, segment_score]
    all_goals decide
  · intro w _
    rfl

/-- Concrete instantiation of the windowing clause of `C1_end_to_end` at
window size 1. -/
theorem C1_end_to_end_witness :
    (1 : Nat) ≤ 1 ∧ PD3.create_sliding_window_conversations scenarioPairs 1 = [] :=
  ⟨Nat.le_refl 1, C1_end_to_end.2.2.2.2 1 (Nat.le_refl 1)⟩

end TherapyEsther
